import Mathlib

/-!
Verification of the particle-ring subsystem of src/index.js.

The embedding works over exact rationals.  The transcendental functions
of the host math library (Math.sqrt, Math.log, Math.cos, Math.sin) and
the constant Math.PI are abstract parameters, gathered in a MathFns
record: the code uses them as black boxes, so every structural property
of the sampler and of the tick loop holds for an arbitrary
interpretation of those functions.  The random source is modelled by
streams of rationals: the two rejection loops of getNormalRandom are
embedded as the first nonzero element of their backing stream, and the
construction loop receives, for each particle, the two accepted
Box-Muller uniforms and the uniform angle draw.
-/

namespace ParticleRing

/-- Abstract interface for Math.sqrt, Math.log, Math.cos, Math.sin and
Math.PI, over which the whole embedding is parameterised. -/
structure MathFns where
  sqrt : ℚ → ℚ
  log : ℚ → ℚ
  cos : ℚ → ℚ
  sin : ℚ → ℚ
  pi : ℚ

/-- Per-particle state, mirroring the object pushed into particlesData:
the fixed orbital radius, the current angle in radians, and the fixed
angular speed in radians per tick. -/
structure Particle where
  radius : ℚ
  angle : ℚ
  speed : ℚ
deriving DecidableEq

instance : Inhabited Particle := ⟨⟨0, 0, 0⟩⟩

attribute [ext] Particle

/-- RGB color, mirroring THREE.Color. -/
structure Color where
  r : ℚ
  g : ℚ
  b : ℚ
deriving DecidableEq

attribute [ext] Color

/-- The configuration of the ring: the radius band, the constant of the
Kepler-like speed law, the number of particles, and the three gradient
stop colors (color1, color2, color3 in the source). -/
structure RingConfig where
  innerRadius : ℚ
  outerRadius : ℚ
  speedConstant : ℚ
  particleCount : ℕ
  color1 : Color
  color2 : Color
  color3 : Color

/-- The mean of the sampled radius, from the source line
meanRadius = (innerRadius + outerRadius) / 2. -/
def meanRadius (cfg : RingConfig) : ℚ := (cfg.innerRadius + cfg.outerRadius) / 2

/-- The spread of the sampled radius, from the source line
stdDevRadius = (outerRadius - innerRadius) / 4. -/
def stdDevRadius (cfg : RingConfig) : ℚ := (cfg.outerRadius - cfg.innerRadius) / 4

/-- Body of getNormalRandom once the two rejection loops have produced
u1 and u2: z = sqrt(-2 * log u1) * cos(2 * pi * u2), returned as
z * stdDev + mean. -/
def normalFromUniforms (m : MathFns) (mean stdDev u1 u2 : ℚ) : ℚ :=
  m.sqrt (-2 * m.log u1) * m.cos (2 * m.pi * u2) * stdDev + mean

/-- The rejection loop while (u === 0) u = Math.random() of
getNormalRandom: the first value of the backing random stream that is
nonzero.  The hypothesis records that the stream is not identically
zero, which is exactly the condition under which the loop terminates. -/
def firstNonzero (u : ℕ → ℚ) (h : ∃ n, u n ≠ 0) : ℚ := u (Nat.find h)

/-- getNormalRandom from the source: run the two rejection loops on
their backing streams v and w, then apply the Box-Muller transform and
the affine rescaling to the accepted uniforms. -/
def getNormalRandom (m : MathFns) (mean stdDev : ℚ) (v w : ℕ → ℚ)
    (hv : ∃ n, v n ≠ 0) (hw : ∃ n, w n ≠ 0) : ℚ :=
  normalFromUniforms m mean stdDev (firstNonzero v hv) (firstNonzero w hw)

/-- The clamp of the construction loop, from the source line
radius = Math.max(innerRadius, Math.min(outerRadius, radius)). -/
def clampRadius (cfg : RingConfig) (radius : ℚ) : ℚ :=
  max cfg.innerRadius (min cfg.outerRadius radius)

/-- One iteration of the construction loop, given the accepted
Box-Muller uniforms u1 u2 and the raw angle draw ua: sample the radius,
clamp it into the band, set angle = ua * pi * 2 and
speed = speedConstant / radius. -/
def mkParticle (m : MathFns) (cfg : RingConfig) (u1 u2 ua : ℚ) : Particle :=
  let radius := clampRadius cfg
    (normalFromUniforms m (meanRadius cfg) (stdDevRadius cfg) u1 u2)
  { radius := radius
    angle := ua * m.pi * 2
    speed := cfg.speedConstant / radius }

/-- The particlesData array produced by the construction loop: one
particle per index i < particleCount, fed from the per-particle
uniform streams. -/
def buildParticles (m : MathFns) (cfg : RingConfig) (u1 u2 ua : ℕ → ℚ) : List Particle :=
  (List.range cfg.particleCount).map (fun i => mkParticle m cfg (u1 i) (u2 i) (ua i))

/-- THREE.Color.lerpColors: per-channel linear blend
c1 + (c2 - c1) * alpha. -/
def lerpColors (c1 c2 : Color) (alpha : ℚ) : Color :=
  { r := c1.r + (c2.r - c1.r) * alpha
    g := c1.g + (c2.g - c1.g) * alpha
    b := c1.b + (c2.b - c1.b) * alpha }

/-- The color assignment of the construction loop: normalize the radius
over the band, blend color1 to color2 below the midpoint and color2 to
color3 at and above it. -/
def particleColor (cfg : RingConfig) (radius : ℚ) : Color :=
  let normalizedRadius := (radius - cfg.innerRadius) / (cfg.outerRadius - cfg.innerRadius)
  if normalizedRadius < 1 / 2 then
    lerpColors cfg.color1 cfg.color2 (normalizedRadius * 2)
  else
    lerpColors cfg.color2 cfg.color3 ((normalizedRadius - 1 / 2) * 2)

/-- The initial position buffer written by the construction loop: for
each particle, cos(angle) * radius, sin(angle) * radius, then 0 to keep
the ring flat. -/
def initPositions (m : MathFns) : List Particle → List ℚ
  | [] => []
  | p :: ps =>
      m.cos p.angle * p.radius :: m.sin p.angle * p.radius :: 0 :: initPositions m ps

/-- The initial color buffer written by the construction loop: the r, g
and b channels of the gradient color of each particle. -/
def initColors (cfg : RingConfig) : List Particle → List ℚ
  | [] => []
  | p :: ps =>
      (particleColor cfg p.radius).r :: (particleColor cfg p.radius).g ::
        (particleColor cfg p.radius).b :: initColors cfg ps

/-- The mutable state of the ring: the particlesData array, the position
buffer, the color buffer, and the needsUpdate dirty flag of the position
attribute. -/
structure RingState where
  particlesData : List Particle
  positions : List ℚ
  colors : List ℚ
  needsUpdate : Bool

/-- The state right after module initialisation: particles, positions
and colors filled by the construction loop, dirty flag not yet raised. -/
def initState (m : MathFns) (cfg : RingConfig) (u1 u2 ua : ℕ → ℚ) : RingState :=
  { particlesData := buildParticles m cfg u1 u2 ua
    positions := initPositions m (buildParticles m cfg u1 u2 ua)
    colors := initColors cfg (buildParticles m cfg u1 u2 ua)
    needsUpdate := false }

/-- data.angle += data.speed, the per-particle update of animate. -/
def tickParticle (p : Particle) : Particle :=
  { p with angle := p.angle + p.speed }

/-- The position writes of the animate loop: entries 3i and 3i+1 are
overwritten from the advanced particle i, entry 3i+2 is left alone; a
write past the end of the buffer is silently dropped, as out-of-range
writes to a Float32Array are. -/
def updatePositions (m : MathFns) : List Particle → List ℚ → List ℚ
  | p :: ps, _ :: _ :: z :: rest =>
      m.cos p.angle * p.radius :: m.sin p.angle * p.radius :: z ::
        updatePositions m ps rest
  | _, old => old

/-- One call of animate restricted to the particle-ring subsystem:
advance every angle by its own speed, rewrite the x and y entries of the
position buffer from the advanced state, leave the z entries and the
color buffer alone, and raise needsUpdate on the position attribute. -/
def tick (m : MathFns) (s : RingState) : RingState :=
  { particlesData := s.particlesData.map tickParticle
    positions := updatePositions m (s.particlesData.map tickParticle) s.positions
    colors := s.colors
    needsUpdate := true }

/-- n successive calls of the tick. -/
def tickN (m : MathFns) : ℕ → RingState → RingState
  | 0, s => s
  | n + 1, s => tick m (tickN m n s)

/-- THREE.Color of the CSS name white. -/
def white : Color := ⟨1, 1, 1⟩

/-- THREE.Color of the CSS name yellow. -/
def yellow : Color := ⟨1, 1, 0⟩

/-- THREE.Color of the CSS name orange, 0xffa500. -/
def orange : Color := ⟨1, 165 / 255, 0⟩

/-- The configuration hard-coded in the source: innerRadius 3,
outerRadius 5, speed constant 0.4, 20000 particles, white, yellow and
orange gradient stops. -/
def sourceConfig : RingConfig :=
  { innerRadius := 3
    outerRadius := 5
    speedConstant := 2 / 5
    particleCount := 20000
    color1 := white
    color2 := yellow
    color3 := orange }

/-- Every sampled radius is at least innerRadius and, when the band is
ordered, at most outerRadius, by the clamp. -/
theorem buildParticles_radius (m : MathFns) (cfg : RingConfig) (u1 u2 ua : ℕ → ℚ)
    (h : cfg.innerRadius ≤ cfg.outerRadius) :
    ∀ p ∈ buildParticles m cfg u1 u2 ua,
      cfg.innerRadius ≤ p.radius ∧ p.radius ≤ cfg.outerRadius := by
  intro p hp
  simp only [buildParticles, List.mem_map, List.mem_range] at hp
  obtain ⟨i, _, rfl⟩ := hp
  exact ⟨le_max_left _ _, max_le h (min_le_left _ _)⟩

/-- Every sampled particle satisfies the speed law definitionally. -/
theorem buildParticles_speed (m : MathFns) (cfg : RingConfig) (u1 u2 ua : ℕ → ℚ) :
    ∀ p ∈ buildParticles m cfg u1 u2 ua, p.speed = cfg.speedConstant / p.radius := by
  intro p hp
  simp only [buildParticles, List.mem_map, List.mem_range] at hp
  obtain ⟨i, _, rfl⟩ := hp
  rfl

/-- A degenerate configuration with innerRadius = outerRadius = 0 and a
single particle, inputs the spec requires the construction to reject. -/
def degenerateConfig : RingConfig :=
  { innerRadius := 0
    outerRadius := 0
    speedConstant := 2 / 5
    particleCount := 1
    color1 := white
    color2 := yellow
    color3 := orange }

/-- A concrete interpretation of the math library where every function
returns 0. -/
def constZero : MathFns := ⟨fun _ => 0, fun _ => 0, fun _ => 0, fun _ => 0, 0⟩

/-- A small concrete configuration for witnesses: the source band 3..5
with the source speed constant 0.4, but only two particles. -/
def testConfig : RingConfig :=
  { innerRadius := 3
    outerRadius := 5
    speedConstant := 2 / 5
    particleCount := 2
    color1 := white
    color2 := yellow
    color3 := orange }

/-- The constant stream one half, a legal value of Math.random. -/
def constHalf : ℕ → ℚ := fun _ => 1 / 2

/-- C1: the claim says degenerate configuration inputs (innerRadius at
or above outerRadius, non-positive particleCount) make the construction
fail fast with a configuration error, so that a zero radius never
reaches the division speedConstant / radius.  The code performs no
validation at all: evaluated on the degenerate band 0..0, the
construction succeeds, produces its particle, clamps the radius to 0 and
feeds that 0 straight into the speed division (Infinity in the
JavaScript source). -/
theorem C1_degenerate_config_not_rejected :
    (buildParticles constZero degenerateConfig constHalf constHalf constHalf).length = 1
    ∧ ∀ p ∈ buildParticles constZero degenerateConfig constHalf constHalf constHalf,
        p.radius = 0 ∧ p.speed = degenerateConfig.speedConstant / 0 := by
  constructor
  · simp [buildParticles, degenerateConfig]
  · intro p hp
    simp only [buildParticles, List.mem_map, List.mem_range] at hp
    obtain ⟨i, _, rfl⟩ := hp
    have hr : (mkParticle constZero degenerateConfig
        (constHalf i) (constHalf i) (constHalf i)).radius = 0 := by
      show max degenerateConfig.innerRadius (min degenerateConfig.outerRadius _) = 0
      have hi : degenerateConfig.innerRadius = 0 := rfl
      have ho : degenerateConfig.outerRadius = 0 := rfl
      rw [hi, ho]
      exact max_eq_left (min_le_left _ _)
    refine ⟨hr, ?_⟩
    show degenerateConfig.speedConstant / (mkParticle constZero degenerateConfig
      (constHalf i) (constHalf i) (constHalf i)).radius = degenerateConfig.speedConstant / 0
    rw [hr]

/-- A math interpretation driving the standard-normal variate to exactly
-2, the value at which the clamped radius attains innerRadius. -/
def reachLow : MathFns := ⟨fun _ => 2, fun x => x, fun _ => -1, fun x => x, 0⟩

/-- A math interpretation driving the standard-normal variate to exactly
2, the value at which the clamped radius attains outerRadius. -/
def reachHigh : MathFns := ⟨fun _ => 2, fun x => x, fun _ => 1, fun x => x, 0⟩

/-- C2: with a valid configuration the sampler produces exactly
particleCount particles, each with radius in the closed band, the radius
is a clamp (not a resample) of the normally-sampled value, and both
bounds are attainable. -/
theorem C2_count_and_radius_band (m : MathFns) (cfg : RingConfig) (u1 u2 ua : ℕ → ℚ)
    (hn : 0 < cfg.particleCount) (h0 : 0 < cfg.innerRadius)
    (h1 : cfg.innerRadius < cfg.outerRadius) :
    (buildParticles m cfg u1 u2 ua).length = cfg.particleCount
    ∧ (∀ p ∈ buildParticles m cfg u1 u2 ua,
        cfg.innerRadius ≤ p.radius ∧ p.radius ≤ cfg.outerRadius)
    ∧ (∀ a b c : ℚ, (mkParticle m cfg a b c).radius
        = max cfg.innerRadius (min cfg.outerRadius
            (normalFromUniforms m (meanRadius cfg) (stdDevRadius cfg) a b)))
    ∧ (∃ m2 : MathFns, ∃ a b c : ℚ, (mkParticle m2 cfg a b c).radius = cfg.innerRadius)
    ∧ (∃ m2 : MathFns, ∃ a b c : ℚ, (mkParticle m2 cfg a b c).radius = cfg.outerRadius) := by
  refine ⟨by simp [buildParticles], buildParticles_radius m cfg u1 u2 ua h1.le,
    fun a b c => rfl, ⟨reachLow, 0, 0, 0, ?_⟩, ⟨reachHigh, 0, 0, 0, ?_⟩⟩
  · show clampRadius cfg
      (normalFromUniforms reachLow (meanRadius cfg) (stdDevRadius cfg) 0 0) = cfg.innerRadius
    have he : normalFromUniforms reachLow (meanRadius cfg) (stdDevRadius cfg) 0 0
        = cfg.innerRadius := by
      show (2 : ℚ) * (-1) * ((cfg.outerRadius - cfg.innerRadius) / 4)
        + (cfg.innerRadius + cfg.outerRadius) / 2 = cfg.innerRadius
      ring
    rw [clampRadius, he, min_eq_right h1.le, max_self]
  · show clampRadius cfg
      (normalFromUniforms reachHigh (meanRadius cfg) (stdDevRadius cfg) 0 0) = cfg.outerRadius
    have he : normalFromUniforms reachHigh (meanRadius cfg) (stdDevRadius cfg) 0 0
        = cfg.outerRadius := by
      show (2 : ℚ) * 1 * ((cfg.outerRadius - cfg.innerRadius) / 4)
        + (cfg.innerRadius + cfg.outerRadius) / 2 = cfg.outerRadius
      ring
    rw [clampRadius, he, min_self, max_eq_right h1.le]

/-- Witness for C2 at the concrete two-particle configuration. -/
theorem C2_count_and_radius_band_witness :
    (buildParticles constZero testConfig constHalf constHalf constHalf).length
        = testConfig.particleCount
    ∧ (∀ p ∈ buildParticles constZero testConfig constHalf constHalf constHalf,
        testConfig.innerRadius ≤ p.radius ∧ p.radius ≤ testConfig.outerRadius)
    ∧ (∀ a b c : ℚ, (mkParticle constZero testConfig a b c).radius
        = max testConfig.innerRadius (min testConfig.outerRadius
            (normalFromUniforms constZero (meanRadius testConfig) (stdDevRadius testConfig) a b)))
    ∧ (∃ m2 : MathFns, ∃ a b c : ℚ,
        (mkParticle m2 testConfig a b c).radius = testConfig.innerRadius)
    ∧ (∃ m2 : MathFns, ∃ a b c : ℚ,
        (mkParticle m2 testConfig a b c).radius = testConfig.outerRadius) :=
  C2_count_and_radius_band constZero testConfig constHalf constHalf constHalf
    (by norm_num [testConfig]) (by norm_num [testConfig]) (by norm_num [testConfig])

/-- C3: every sampled particle satisfies speed = speedConstant / radius
exactly, has strictly positive speed, and speed is antitone in radius
across the particles of one ring. -/
theorem C3_kepler_speed (m : MathFns) (cfg : RingConfig) (u1 u2 ua : ℕ → ℚ)
    (h0 : 0 < cfg.innerRadius) (h1 : cfg.innerRadius < cfg.outerRadius)
    (hc : 0 < cfg.speedConstant) :
    (∀ p ∈ buildParticles m cfg u1 u2 ua,
      p.speed = cfg.speedConstant / p.radius ∧ 0 < p.speed)
    ∧ ∀ p ∈ buildParticles m cfg u1 u2 ua, ∀ q ∈ buildParticles m cfg u1 u2 ua,
        p.radius ≤ q.radius → q.speed ≤ p.speed := by
  have hrad := buildParticles_radius m cfg u1 u2 ua h1.le
  have hspd := buildParticles_speed m cfg u1 u2 ua
  constructor
  · intro p hp
    refine ⟨hspd p hp, ?_⟩
    rw [hspd p hp]
    exact div_pos hc (lt_of_lt_of_le h0 (hrad p hp).1)
  · intro p hp q hq hpq
    rw [hspd p hp, hspd q hq]
    have hpr : 0 < p.radius := lt_of_lt_of_le h0 (hrad p hp).1
    have hc2 : (0 : ℚ) ≤ cfg.speedConstant := hc.le
    gcongr

/-- Witness for C3 at the concrete two-particle configuration. -/
theorem C3_kepler_speed_witness :
    (∀ p ∈ buildParticles constZero testConfig constHalf constHalf constHalf,
      p.speed = testConfig.speedConstant / p.radius ∧ 0 < p.speed)
    ∧ ∀ p ∈ buildParticles constZero testConfig constHalf constHalf constHalf,
        ∀ q ∈ buildParticles constZero testConfig constHalf constHalf constHalf,
          p.radius ≤ q.radius → q.speed ≤ p.speed :=
  C3_kepler_speed constZero testConfig constHalf constHalf constHalf
    (by norm_num [testConfig]) (by norm_num [testConfig]) (by norm_num [testConfig])

/-- C10: with a valid configuration, every sampled speed lies between
speedConstant / outerRadius and speedConstant / innerRadius, so the
per-tick angular increment is bounded above by
speedConstant / innerRadius. -/
theorem C10_speed_band (m : MathFns) (cfg : RingConfig) (u1 u2 ua : ℕ → ℚ)
    (h0 : 0 < cfg.innerRadius) (h1 : cfg.innerRadius < cfg.outerRadius)
    (hc : 0 < cfg.speedConstant) :
    ∀ p ∈ buildParticles m cfg u1 u2 ua,
      cfg.speedConstant / cfg.outerRadius ≤ p.speed
      ∧ p.speed ≤ cfg.speedConstant / cfg.innerRadius := by
  intro p hp
  have hr := buildParticles_radius m cfg u1 u2 ua h1.le p hp
  rw [buildParticles_speed m cfg u1 u2 ua p hp]
  have hpr : 0 < p.radius := lt_of_lt_of_le h0 hr.1
  have hc2 : (0 : ℚ) ≤ cfg.speedConstant := hc.le
  constructor
  · gcongr
    exact hr.2
  · gcongr
    exact hr.1

/-- Witness for C10 at the first particle of the concrete two-particle
configuration. -/
theorem C10_speed_band_witness :
    testConfig.speedConstant / testConfig.outerRadius
        ≤ (mkParticle constZero testConfig (constHalf 0) (constHalf 0) (constHalf 0)).speed
    ∧ (mkParticle constZero testConfig (constHalf 0) (constHalf 0) (constHalf 0)).speed
        ≤ testConfig.speedConstant / testConfig.innerRadius :=
  C10_speed_band constZero testConfig constHalf constHalf constHalf
    (by norm_num [testConfig]) (by norm_num [testConfig]) (by norm_num [testConfig])
    (mkParticle constZero testConfig (constHalf 0) (constHalf 0) (constHalf 0))
    (by
      simp only [buildParticles, List.mem_map, List.mem_range]
      exact ⟨0, by norm_num [testConfig], rfl⟩)

/-- The tick never touches the color buffer. -/
theorem tickN_colors (m : MathFns) (n : ℕ) (s : RingState) :
    (tickN m n s).colors = s.colors := by
  induction n with
  | zero => rfl
  | succ n ih => exact ih

/-- After n ticks every particle keeps its radius and speed, and its
angle has advanced by exactly n times its speed. -/
theorem tickN_particlesData (m : MathFns) (n : ℕ) (s : RingState) :
    (tickN m n s).particlesData
      = s.particlesData.map
          (fun p => Particle.mk p.radius (p.angle + (n : ℚ) * p.speed) p.speed) := by
  induction n with
  | zero =>
    show s.particlesData = _
    have he : (fun p : Particle =>
        Particle.mk p.radius (p.angle + ((0 : ℕ) : ℚ) * p.speed) p.speed) = fun p => p := by
      funext p
      have ha : p.angle + ((0 : ℕ) : ℚ) * p.speed = p.angle := by push_cast; ring
      show Particle.mk p.radius (p.angle + ((0 : ℕ) : ℚ) * p.speed) p.speed = p
      rw [ha]
    rw [he, List.map_id']
  | succ n ih =>
    show (tickN m n s).particlesData.map tickParticle = _
    rw [ih, List.map_map]
    have he : tickParticle ∘ (fun p : Particle =>
        Particle.mk p.radius (p.angle + (n : ℚ) * p.speed) p.speed)
        = fun p : Particle =>
            Particle.mk p.radius (p.angle + ((n + 1 : ℕ) : ℚ) * p.speed) p.speed := by
      funext p
      show Particle.mk p.radius (p.angle + (n : ℚ) * p.speed + p.speed) p.speed = _
      have ha : p.angle + (n : ℚ) * p.speed + p.speed
          = p.angle + ((n + 1 : ℕ) : ℚ) * p.speed := by push_cast; ring
      rw [ha]
    rw [he]

/-- A position entry of the form 3i+2 is never overwritten by the
position writes of the animate loop. -/
theorem updatePositions_z (m : MathFns) (ps : List Particle) (old : List ℚ) (i : ℕ) :
    (updatePositions m ps old).getD (3 * i + 2) 0 = old.getD (3 * i + 2) 0 := by
  induction ps generalizing old i with
  | nil => rfl
  | cons p ps ih =>
    match old with
    | [] => rfl
    | [x] => rfl
    | [x, y] => rfl
    | x :: y :: z :: rest =>
      show (m.cos p.angle * p.radius :: m.sin p.angle * p.radius :: z ::
          updatePositions m ps rest).getD (3 * i + 2) 0
        = (x :: y :: z :: rest).getD (3 * i + 2) 0
      cases i with
      | zero => rfl
      | succ i =>
        have h3 : 3 * (i + 1) + 2 = 3 * i + 2 + 1 + 1 + 1 := by ring
        rw [h3]
        simp only [List.getD_cons_succ]
        exact ih rest i

/-- The x entry of particle i after the position writes, when the buffer
covers all particles. -/
theorem updatePositions_x (m : MathFns) (ps : List Particle) (old : List ℚ) (i : ℕ)
    (hi : i < ps.length) (hal : 3 * ps.length ≤ old.length) :
    (updatePositions m ps old).getD (3 * i) 0
      = m.cos (ps.getD i default).angle * (ps.getD i default).radius := by
  induction ps generalizing old i with
  | nil => exact absurd hi (by simp)
  | cons p ps ih =>
    match old with
    | [] =>
      exfalso
      simp only [List.length_cons, List.length_nil] at hal
      omega
    | [x] =>
      exfalso
      simp only [List.length_cons, List.length_nil] at hal
      omega
    | [x, y] =>
      exfalso
      simp only [List.length_cons, List.length_nil] at hal
      omega
    | x :: y :: z :: rest =>
      show (m.cos p.angle * p.radius :: m.sin p.angle * p.radius :: z ::
          updatePositions m ps rest).getD (3 * i) 0 = _
      cases i with
      | zero => rfl
      | succ i =>
        have hi2 : i < ps.length := by
          simp only [List.length_cons] at hi
          omega
        have hal2 : 3 * ps.length ≤ rest.length := by
          simp only [List.length_cons] at hal
          omega
        have h3 : 3 * (i + 1) = 3 * i + 1 + 1 + 1 := by ring
        rw [h3]
        simp only [List.getD_cons_succ]
        exact ih rest i hi2 hal2

/-- The y entry of particle i after the position writes, when the buffer
covers all particles. -/
theorem updatePositions_y (m : MathFns) (ps : List Particle) (old : List ℚ) (i : ℕ)
    (hi : i < ps.length) (hal : 3 * ps.length ≤ old.length) :
    (updatePositions m ps old).getD (3 * i + 1) 0
      = m.sin (ps.getD i default).angle * (ps.getD i default).radius := by
  induction ps generalizing old i with
  | nil => exact absurd hi (by simp)
  | cons p ps ih =>
    match old with
    | [] =>
      exfalso
      simp only [List.length_cons, List.length_nil] at hal
      omega
    | [x] =>
      exfalso
      simp only [List.length_cons, List.length_nil] at hal
      omega
    | [x, y] =>
      exfalso
      simp only [List.length_cons, List.length_nil] at hal
      omega
    | x :: y :: z :: rest =>
      show (m.cos p.angle * p.radius :: m.sin p.angle * p.radius :: z ::
          updatePositions m ps rest).getD (3 * i + 1) 0 = _
      cases i with
      | zero => rfl
      | succ i =>
        have hi2 : i < ps.length := by
          simp only [List.length_cons] at hi
          omega
        have hal2 : 3 * ps.length ≤ rest.length := by
          simp only [List.length_cons] at hal
          omega
        have h3 : 3 * (i + 1) + 1 = 3 * i + 1 + 1 + 1 + 1 := by ring
        rw [h3]
        simp only [List.getD_cons_succ]
        exact ih rest i hi2 hal2

/-- Every z entry written by the construction loop is 0. -/
theorem initPositions_z (m : MathFns) (ps : List Particle) (j : ℕ) :
    (initPositions m ps).getD (3 * j + 2) 0 = 0 := by
  induction ps generalizing j with
  | nil => rfl
  | cons p ps ih =>
    show (m.cos p.angle * p.radius :: m.sin p.angle * p.radius :: 0 ::
        initPositions m ps).getD (3 * j + 2) 0 = 0
    cases j with
    | zero => rfl
    | succ j =>
      have h3 : 3 * (j + 1) + 2 = 3 * j + 2 + 1 + 1 + 1 := by ring
      rw [h3]
      simp only [List.getD_cons_succ]
      exact ih j

/-- C4: after n ticks each particle has angle initialAngle + n * speed,
with radius (and speed) unchanged, for every particle of the array. -/
theorem C4_angle_after_n_ticks (m : MathFns) (n : ℕ) (s : RingState) :
    (tickN m n s).particlesData
      = s.particlesData.map
          (fun p => Particle.mk p.radius (p.angle + (n : ℚ) * p.speed) p.speed) :=
  tickN_particlesData m n s

/-- C5: one tick writes position[3i] = cos(angle) * radius and
position[3i+1] = sin(angle) * radius with the already-incremented angle,
leaves position[3i+2] unchanged (an entry that the construction loop
always writes as 0), and raises the needsUpdate dirty flag. -/
theorem C5_tick_position_writes (m : MathFns) (s : RingState) (i : ℕ)
    (hi : i < s.particlesData.length)
    (hal : 3 * s.particlesData.length ≤ s.positions.length) :
    ((tick m s).positions.getD (3 * i) 0
      = m.cos ((s.particlesData.getD i default).angle
          + (s.particlesData.getD i default).speed)
        * (s.particlesData.getD i default).radius)
    ∧ ((tick m s).positions.getD (3 * i + 1) 0
      = m.sin ((s.particlesData.getD i default).angle
          + (s.particlesData.getD i default).speed)
        * (s.particlesData.getD i default).radius)
    ∧ ((tick m s).positions.getD (3 * i + 2) 0 = s.positions.getD (3 * i + 2) 0)
    ∧ (∀ ps : List Particle, ∀ j : ℕ, (initPositions m ps).getD (3 * j + 2) 0 = 0)
    ∧ (tick m s).needsUpdate = true := by
  have hi2 : i < (s.particlesData.map tickParticle).length := by simpa using hi
  have hal2 : 3 * (s.particlesData.map tickParticle).length ≤ s.positions.length := by
    simpa using hal
  have hmap : (s.particlesData.map tickParticle).getD i default
      = tickParticle (s.particlesData.getD i default) := by
    rw [List.getD_eq_getElem _ _ hi2, List.getD_eq_getElem _ _ hi, List.getElem_map]
  refine ⟨?_, ?_, ?_, initPositions_z m, rfl⟩
  · have hx := updatePositions_x m (s.particlesData.map tickParticle) s.positions i hi2 hal2
    rw [hmap] at hx
    exact hx
  · have hy := updatePositions_y m (s.particlesData.map tickParticle) s.positions i hi2 hal2
    rw [hmap] at hy
    exact hy
  · exact updatePositions_z m (s.particlesData.map tickParticle) s.positions i

/-- A concrete interpretation of the math library for witnesses, with
every function the identity and pi read as 3. -/
def demoFns : MathFns := ⟨fun x => x, fun x => x, fun x => x, fun x => x, 3⟩

/-- A concrete one-particle state for witnesses. -/
def demoState : RingState :=
  { particlesData := [⟨2, 1, 5⟩]
    positions := [10, 11, 12]
    colors := [1, 1, 1]
    needsUpdate := false }

/-- Witness for C5 at the concrete one-particle state. -/
theorem C5_tick_position_writes_witness :
    ((tick demoFns demoState).positions.getD (3 * 0) 0
      = demoFns.cos ((demoState.particlesData.getD 0 default).angle
          + (demoState.particlesData.getD 0 default).speed)
        * (demoState.particlesData.getD 0 default).radius)
    ∧ ((tick demoFns demoState).positions.getD (3 * 0 + 1) 0
      = demoFns.sin ((demoState.particlesData.getD 0 default).angle
          + (demoState.particlesData.getD 0 default).speed)
        * (demoState.particlesData.getD 0 default).radius)
    ∧ ((tick demoFns demoState).positions.getD (3 * 0 + 2) 0
      = demoState.positions.getD (3 * 0 + 2) 0)
    ∧ (∀ ps : List Particle, ∀ j : ℕ,
        (initPositions demoFns ps).getD (3 * j + 2) 0 = 0)
    ∧ (tick demoFns demoState).needsUpdate = true :=
  C5_tick_position_writes demoFns demoState 0
    (by simp [demoState]) (by simp [demoState])

/-- C9: across any number of ticks the color buffer, every particle's
speed field and every z entry of the position buffer keep the values
they had before. -/
theorem C9_tick_noop_elsewhere (m : MathFns) (n : ℕ) (s : RingState) :
    (tickN m n s).colors = s.colors
    ∧ (tickN m n s).particlesData.map Particle.speed
        = s.particlesData.map Particle.speed
    ∧ ∀ i : ℕ, (tickN m n s).positions.getD (3 * i + 2) 0
        = s.positions.getD (3 * i + 2) 0 := by
  refine ⟨tickN_colors m n s, ?_, ?_⟩
  · rw [tickN_particlesData m n s, List.map_map]
    rfl
  · intro i
    induction n with
    | zero => rfl
    | succ n ih =>
      show (updatePositions m ((tickN m n s).particlesData.map tickParticle)
          (tickN m n s).positions).getD (3 * i + 2) 0 = _
      rw [updatePositions_z]
      exact ih

/-- The color-buffer entries of particle i are exactly the channels of
its gradient color. -/
theorem initColors_entries (cfg : RingConfig) (ps : List Particle) (i : ℕ)
    (hi : i < ps.length) :
    (initColors cfg ps).getD (3 * i) 0 = (particleColor cfg (ps.getD i default).radius).r
    ∧ (initColors cfg ps).getD (3 * i + 1) 0
        = (particleColor cfg (ps.getD i default).radius).g
    ∧ (initColors cfg ps).getD (3 * i + 2) 0
        = (particleColor cfg (ps.getD i default).radius).b := by
  induction ps generalizing i with
  | nil => exact absurd hi (by simp)
  | cons p ps ih =>
    cases i with
    | zero => exact ⟨rfl, rfl, rfl⟩
    | succ i =>
      have hi2 : i < ps.length := by
        simp only [List.length_cons] at hi
        omega
      have h0 : 3 * (i + 1) = 3 * i + 1 + 1 + 1 := by ring
      have h1 : 3 * (i + 1) + 1 = 3 * i + 1 + 1 + 1 + 1 := by ring
      have h2 : 3 * (i + 1) + 2 = 3 * i + 2 + 1 + 1 + 1 := by ring
      refine ⟨?_, ?_, ?_⟩
      · show ((particleColor cfg p.radius).r :: (particleColor cfg p.radius).g ::
            (particleColor cfg p.radius).b :: initColors cfg ps).getD (3 * (i + 1)) 0 = _
        rw [h0]
        simp only [List.getD_cons_succ]
        exact (ih i hi2).1
      · show ((particleColor cfg p.radius).r :: (particleColor cfg p.radius).g ::
            (particleColor cfg p.radius).b :: initColors cfg ps).getD (3 * (i + 1) + 1) 0 = _
        rw [h1]
        simp only [List.getD_cons_succ]
        exact (ih i hi2).2.1
      · show ((particleColor cfg p.radius).r :: (particleColor cfg p.radius).g ::
            (particleColor cfg p.radius).b :: initColors cfg ps).getD (3 * (i + 1) + 2) 0 = _
        rw [h2]
        simp only [List.getD_cons_succ]
        exact (ih i hi2).2.2

/-- C7: the color of a particle is the two-segment per-channel linear
gradient of its normalized radius, and the three color-buffer entries of
particle i hold exactly its r, g, b channels. -/
theorem C7_color_gradient (cfg : RingConfig) (ps : List Particle) (i : ℕ)
    (hi : i < ps.length) :
    ((initColors cfg ps).getD (3 * i) 0
        = (particleColor cfg (ps.getD i default).radius).r
      ∧ (initColors cfg ps).getD (3 * i + 1) 0
        = (particleColor cfg (ps.getD i default).radius).g
      ∧ (initColors cfg ps).getD (3 * i + 2) 0
        = (particleColor cfg (ps.getD i default).radius).b)
    ∧ (∀ radius : ℚ, particleColor cfg radius =
        (if (radius - cfg.innerRadius) / (cfg.outerRadius - cfg.innerRadius) < 1 / 2 then
          lerpColors cfg.color1 cfg.color2
            (2 * ((radius - cfg.innerRadius) / (cfg.outerRadius - cfg.innerRadius)))
        else
          lerpColors cfg.color2 cfg.color3
            (2 * ((radius - cfg.innerRadius) / (cfg.outerRadius - cfg.innerRadius) - 1 / 2))))
    ∧ (∀ a b : Color, ∀ t : ℚ, lerpColors a b t
        = Color.mk (a.r + (b.r - a.r) * t) (a.g + (b.g - a.g) * t)
            (a.b + (b.b - a.b) * t)) := by
  refine ⟨initColors_entries cfg ps i hi, ?_, fun a b t => rfl⟩
  intro radius
  show (if (radius - cfg.innerRadius) / (cfg.outerRadius - cfg.innerRadius) < 1 / 2 then
      lerpColors cfg.color1 cfg.color2
        ((radius - cfg.innerRadius) / (cfg.outerRadius - cfg.innerRadius) * 2)
    else
      lerpColors cfg.color2 cfg.color3
        (((radius - cfg.innerRadius) / (cfg.outerRadius - cfg.innerRadius) - 1 / 2) * 2)) = _
  split
  · congr 1
    ring
  · congr 1
    ring

/-- Witness for C7 at a concrete one-particle list. -/
theorem C7_color_gradient_witness :
    ((initColors testConfig [⟨3, 0, 1⟩]).getD (3 * 0) 0
        = (particleColor testConfig (([⟨3, 0, 1⟩] : List Particle).getD 0 default).radius).r
      ∧ (initColors testConfig [⟨3, 0, 1⟩]).getD (3 * 0 + 1) 0
        = (particleColor testConfig (([⟨3, 0, 1⟩] : List Particle).getD 0 default).radius).g
      ∧ (initColors testConfig [⟨3, 0, 1⟩]).getD (3 * 0 + 2) 0
        = (particleColor testConfig (([⟨3, 0, 1⟩] : List Particle).getD 0 default).radius).b)
    ∧ (∀ radius : ℚ, particleColor testConfig radius =
        (if (radius - testConfig.innerRadius)
            / (testConfig.outerRadius - testConfig.innerRadius) < 1 / 2 then
          lerpColors testConfig.color1 testConfig.color2
            (2 * ((radius - testConfig.innerRadius)
              / (testConfig.outerRadius - testConfig.innerRadius)))
        else
          lerpColors testConfig.color2 testConfig.color3
            (2 * ((radius - testConfig.innerRadius)
              / (testConfig.outerRadius - testConfig.innerRadius) - 1 / 2))))
    ∧ (∀ a b : Color, ∀ t : ℚ, lerpColors a b t
        = Color.mk (a.r + (b.r - a.r) * t) (a.g + (b.g - a.g) * t)
            (a.b + (b.b - a.b) * t)) :=
  C7_color_gradient testConfig [⟨3, 0, 1⟩] 0 (by simp)

/-- C8: a particle sitting exactly at innerRadius gets exactly the inner
stop color, and one at outerRadius gets exactly the outer stop color,
the latter through the else branch at interpolation parameter 1. -/
theorem C8_boundary_colors (cfg : RingConfig)
    (h : cfg.innerRadius < cfg.outerRadius) :
    particleColor cfg cfg.innerRadius = cfg.color1
    ∧ particleColor cfg cfg.outerRadius = cfg.color3 := by
  have hne : cfg.outerRadius - cfg.innerRadius ≠ 0 := sub_ne_zero.mpr h.ne'
  constructor
  · show (if (cfg.innerRadius - cfg.innerRadius)
        / (cfg.outerRadius - cfg.innerRadius) < 1 / 2 then
      lerpColors cfg.color1 cfg.color2
        ((cfg.innerRadius - cfg.innerRadius)
          / (cfg.outerRadius - cfg.innerRadius) * 2)
    else
      lerpColors cfg.color2 cfg.color3
        (((cfg.innerRadius - cfg.innerRadius)
          / (cfg.outerRadius - cfg.innerRadius) - 1 / 2) * 2)) = cfg.color1
    rw [sub_self, zero_div, if_pos (by norm_num : (0 : ℚ) < 1 / 2)]
    ext
    · show cfg.color1.r + (cfg.color2.r - cfg.color1.r) * (0 * 2) = cfg.color1.r
      ring
    · show cfg.color1.g + (cfg.color2.g - cfg.color1.g) * (0 * 2) = cfg.color1.g
      ring
    · show cfg.color1.b + (cfg.color2.b - cfg.color1.b) * (0 * 2) = cfg.color1.b
      ring
  · show (if (cfg.outerRadius - cfg.innerRadius)
        / (cfg.outerRadius - cfg.innerRadius) < 1 / 2 then
      lerpColors cfg.color1 cfg.color2
        ((cfg.outerRadius - cfg.innerRadius)
          / (cfg.outerRadius - cfg.innerRadius) * 2)
    else
      lerpColors cfg.color2 cfg.color3
        (((cfg.outerRadius - cfg.innerRadius)
          / (cfg.outerRadius - cfg.innerRadius) - 1 / 2) * 2)) = cfg.color3
    rw [div_self hne, if_neg (by norm_num : ¬ ((1 : ℚ) < 1 / 2))]
    ext
    · show cfg.color2.r + (cfg.color3.r - cfg.color2.r) * ((1 - 1 / 2) * 2) = cfg.color3.r
      ring
    · show cfg.color2.g + (cfg.color3.g - cfg.color2.g) * ((1 - 1 / 2) * 2) = cfg.color3.g
      ring
    · show cfg.color2.b + (cfg.color3.b - cfg.color2.b) * ((1 - 1 / 2) * 2) = cfg.color3.b
      ring

/-- Witness for C8 at the configuration hard-coded in the source. -/
theorem C8_boundary_colors_witness :
    particleColor sourceConfig sourceConfig.innerRadius = sourceConfig.color1
    ∧ particleColor sourceConfig sourceConfig.outerRadius = sourceConfig.color3 :=
  C8_boundary_colors sourceConfig (by norm_num [sourceConfig])

/-- C6: getNormalRandom resamples u1 and u2 until each is nonzero, so
both land in the open unit interval for a legal Math.random stream,
computes z = sqrt(-2 ln u1) * cos(2 pi u2) and returns z * stdDev + mean
with stdDev = (outerRadius - innerRadius) / 4 and
mean = (innerRadius + outerRadius) / 2. -/
theorem C6_box_muller (m : MathFns) (cfg : RingConfig) (v w : ℕ → ℚ)
    (hv01 : ∀ n, 0 ≤ v n ∧ v n < 1) (hw01 : ∀ n, 0 ≤ w n ∧ w n < 1)
    (hv : ∃ n, v n ≠ 0) (hw : ∃ n, w n ≠ 0) :
    (0 < firstNonzero v hv ∧ firstNonzero v hv < 1)
    ∧ (0 < firstNonzero w hw ∧ firstNonzero w hw < 1)
    ∧ getNormalRandom m (meanRadius cfg) (stdDevRadius cfg) v w hv hw
        = m.sqrt (-2 * m.log (firstNonzero v hv))
            * m.cos (2 * m.pi * firstNonzero w hw)
            * stdDevRadius cfg + meanRadius cfg
    ∧ meanRadius cfg = (cfg.innerRadius + cfg.outerRadius) / 2
    ∧ stdDevRadius cfg = (cfg.outerRadius - cfg.innerRadius) / 4 := by
  refine ⟨⟨?_, (hv01 _).2⟩, ⟨?_, (hw01 _).2⟩, rfl, rfl, rfl⟩
  · exact lt_of_le_of_ne (hv01 _).1 (Ne.symm (Nat.find_spec hv))
  · exact lt_of_le_of_ne (hw01 _).1 (Ne.symm (Nat.find_spec hw))

/-- The constant-half stream is somewhere nonzero. -/
theorem constHalf_ne : ∃ n, constHalf n ≠ 0 := ⟨0, by norm_num [constHalf]⟩

/-- The constant-half stream stays inside the range of Math.random. -/
theorem constHalf_mem : ∀ n, 0 ≤ constHalf n ∧ constHalf n < 1 := fun _ =>
  ⟨by norm_num [constHalf], by norm_num [constHalf]⟩

/-- Witness for C6 on the constant-half stream. -/
theorem C6_box_muller_witness :
    (0 < firstNonzero constHalf constHalf_ne ∧ firstNonzero constHalf constHalf_ne < 1)
    ∧ (0 < firstNonzero constHalf constHalf_ne ∧ firstNonzero constHalf constHalf_ne < 1)
    ∧ getNormalRandom demoFns (meanRadius testConfig) (stdDevRadius testConfig)
        constHalf constHalf constHalf_ne constHalf_ne
        = demoFns.sqrt (-2 * demoFns.log (firstNonzero constHalf constHalf_ne))
            * demoFns.cos (2 * demoFns.pi * firstNonzero constHalf constHalf_ne)
            * stdDevRadius testConfig + meanRadius testConfig
    ∧ meanRadius testConfig = (testConfig.innerRadius + testConfig.outerRadius) / 2
    ∧ stdDevRadius testConfig = (testConfig.outerRadius - testConfig.innerRadius) / 4 :=
  C6_box_muller demoFns testConfig constHalf constHalf constHalf_mem constHalf_mem
    constHalf_ne constHalf_ne

end ParticleRing
